import Mathlib

/-!
Verification of the Sankey-diagram builder `concept_prediction_sankey`
from `sankey_experiments.py`.

The builder is embedded as a pure Lean function.  Python floats carried
through unchanged are modelled as rationals (`ℚ`): the function performs
no arithmetic on magnitudes beyond the identity cast `float(v)` and the
comparison `v == 0`, both of which are exact.  The Python `ValueError`
exceptions are modelled with `Except String`.  The ambient plotly default
template colorway read by `go.Figure().layout.template.layout.colorway`
(which may be absent, i.e. `None`, or any list of colors) is passed as an
explicit parameter `templateColorway`.
-/

set_option autoImplicit false

namespace Sankey

/-- One emitted link: source node index, target node index, magnitude. -/
structure Link where
  src : Nat
  tgt : Nat
  val : ℚ
deriving DecidableEq, Repr

/-- The diagram descriptor assembled by `concept_prediction_sankey`:
the concatenated node-label list, the node colors, the parallel link
arrays `source`/`target`/`value`, and the per-link colors set by
`fig.data[0].link.color = link_colors`. -/
structure SankeyDescriptor where
  labels : List String
  nodeColors : List String
  source : List Nat
  target : List Nat
  value : List ℚ
  linkColors : List String
deriving DecidableEq, Repr

/-- The hard-coded fallback palette of `concept_prediction_sankey`
(line 311 of `sankey_experiments.py`). -/
def defaultConceptColors : List String :=
  ["#4c78a8", "#72b7b2", "#f58518", "#e45756", "#54a24b"]

/-- Resolution of the `concept_colors` argument (lines 307–313):
`None` is replaced by the template colorway (`or []` turns an absent
colorway into the empty list), and an empty result is replaced by the
hard-coded default palette. -/
def resolvedPalette (templateColorway : Option (List String))
    (concept_colors : Option (List String)) : List String :=
  let cc := match concept_colors with
    | none => templateColorway.getD []
    | some c => c
  if cc.isEmpty then defaultConceptColors else cc

/-- The inner loop `for j, v in enumerate(row)` (lines 300–305): `j` is
the running column index; a zero cell is skipped, a non-zero cell at
column `j` emits the link `(i, nconcepts + j, float v)`. -/
def emitRow (i nconcepts : Nat) (j : Nat) : List ℚ → List Link
  | [] => []
  | v :: rest =>
    if v = 0 then emitRow i nconcepts (j + 1) rest
    else ⟨i, nconcepts + j, v⟩ :: emitRow i nconcepts (j + 1) rest

/-- The outer loop `for i, row in enumerate(flows)` (lines 297–305):
each row is first checked against the prediction count (line 298-299,
raising `ValueError` on mismatch), then its non-zero cells are emitted
in column order. -/
def emitLinks (nconcepts npredictions : Nat) (i : Nat) :
    List (List ℚ) → Except String (List Link)
  | [] => Except.ok []
  | row :: rest =>
    if row.length ≠ npredictions then
      Except.error "each flow row must match number of predictions"
    else do
      let restLinks ← emitLinks nconcepts npredictions (i + 1) rest
      Except.ok (emitRow i nconcepts 0 row ++ restLinks)

/-- Embedding of `concept_prediction_sankey` (lines 277–342 of
`sankey_experiments.py`).  The row-count check (line 289), the combined
label list (line 292), the link emission loop (lines 297–305), the
palette resolution (lines 307–313), the node colors (lines 314–317) and
the link colors (line 318, attached at line 341) are reproduced in
order. -/
def concept_prediction_sankey (templateColorway : Option (List String))
    (concepts predictions : List String) (flows : List (List ℚ))
    (concept_colors : Option (List String)) (prediction_color : String) :
    Except String SankeyDescriptor :=
  if flows.length ≠ concepts.length then
    Except.error "flows rows must match number of concepts"
  else do
    let links ← emitLinks concepts.length predictions.length 0 flows
    let palette := resolvedPalette templateColorway concept_colors
    let conceptColorList := (List.range concepts.length).map
      (fun i => palette.getD (i % palette.length) "")
    Except.ok
      { labels := concepts ++ predictions
        nodeColors :=
          conceptColorList ++ List.replicate predictions.length prediction_color
        source := links.map Link.src
        target := links.map Link.tgt
        value := links.map Link.val
        linkColors := links.map (fun l => conceptColorList.getD l.src "") }

/-- Number of non-zero cells of a flow matrix (spec-side measure). -/
def nonzeroCount (flows : List (List ℚ)) : Nat :=
  (flows.map (fun row => row.countP (fun v => decide (v ≠ 0)))).sum

/-- The pure link list produced by the emission loop once validation is
known to succeed: rows in order, each row's non-zero cells in column
order. -/
def rowMajorLinks (nconcepts i : Nat) : List (List ℚ) → List Link
  | [] => []
  | row :: rest => emitRow i nconcepts 0 row ++ rowMajorLinks nconcepts (i + 1) rest

/-- Spec-side formulation of row-major emission: enumerate the rows, in
each row enumerate the columns, keep one link `(i, nconcepts + j, v)`
per non-zero cell `v` at row `i`, column `j`, and concatenate in order. -/
def rowMajorSpec (nconcepts : Nat) (flows : List (List ℚ)) : List Link :=
  (flows.enum.map (fun ir =>
    ir.2.enum.filterMap (fun jv =>
      if jv.2 = 0 then none else some ⟨ir.1, nconcepts + jv.1, jv.2⟩))).flatten

/-- The descriptor `concept_prediction_sankey` returns on shape-valid
input, written out as a pure value. -/
def okDescriptor (templateColorway : Option (List String))
    (concepts predictions : List String) (flows : List (List ℚ))
    (concept_colors : Option (List String)) (prediction_color : String) :
    SankeyDescriptor :=
  let palette := resolvedPalette templateColorway concept_colors
  let conceptColorList := (List.range concepts.length).map
    (fun i => palette.getD (i % palette.length) "")
  let links := rowMajorLinks concepts.length 0 flows
  { labels := concepts ++ predictions
    nodeColors :=
      conceptColorList ++ List.replicate predictions.length prediction_color
    source := links.map Link.src
    target := links.map Link.tgt
    value := links.map Link.val
    linkColors := links.map (fun l => conceptColorList.getD l.src "") }

theorem emitRow_length (i nconcepts j : Nat) (row : List ℚ) :
    (emitRow i nconcepts j row).length = row.countP (fun v => decide (v ≠ 0)) := by
  induction row generalizing j with
  | nil => rfl
  | cons v rest ih =>
    simp only [emitRow, List.countP_cons]
    by_cases hv : v = 0
    · simp [hv, ih]
    · simp [hv, ih]

theorem emitRow_mem {i nconcepts j : Nat} {row : List ℚ} {l : Link}
    (h : l ∈ emitRow i nconcepts j row) :
    l.src = i ∧ nconcepts + j ≤ l.tgt ∧ l.tgt < nconcepts + j + row.length ∧
      l.val ≠ 0 := by
  induction row generalizing j with
  | nil => cases h
  | cons v rest ih =>
    simp only [emitRow] at h
    by_cases hv : v = 0
    · rw [if_pos hv] at h
      obtain ⟨h1, h2, h3, h4⟩ := ih h
      exact ⟨h1, by omega, by simp only [List.length_cons]; omega, h4⟩
    · rw [if_neg hv] at h
      rcases List.mem_cons.mp h with heq | hmem
      · subst heq
        exact ⟨rfl, Nat.le_refl _, by simp only [List.length_cons]; omega, hv⟩
      · obtain ⟨h1, h2, h3, h4⟩ := ih hmem
        exact ⟨h1, by omega, by simp only [List.length_cons]; omega, h4⟩

theorem emitRow_mem_intro {row : List ℚ} (i nconcepts j : Nat) {col : Nat}
    (hcol : col < row.length) (hv : row.getD col 0 ≠ 0) :
    (⟨i, nconcepts + (j + col), row.getD col 0⟩ : Link) ∈
      emitRow i nconcepts j row := by
  induction row generalizing j col with
  | nil => cases hcol
  | cons v rest ih =>
    cases col with
    | zero =>
      simp only [List.getD_cons_zero] at hv ⊢
      simp only [emitRow, if_neg hv]
      exact List.mem_cons_self _ _
    | succ c =>
      simp only [List.getD_cons_succ] at hv ⊢
      simp only [List.length_cons] at hcol
      have hrec := ih (j + 1) (by omega) hv
      have hidx : nconcepts + (j + 1 + c) = nconcepts + (j + (c + 1)) := by omega
      rw [hidx] at hrec
      simp only [emitRow]
      by_cases hv0 : v = 0
      · rw [if_pos hv0]
        exact hrec
      · rw [if_neg hv0]
        exact List.mem_cons_of_mem _ hrec

theorem emitRow_eq_enumFrom (i nconcepts j : Nat) (row : List ℚ) :
    emitRow i nconcepts j row =
      (row.enumFrom j).filterMap
        (fun jv => if jv.2 = 0 then none else some ⟨i, nconcepts + jv.1, jv.2⟩) := by
  induction row generalizing j with
  | nil => rfl
  | cons v rest ih =>
    simp only [emitRow, List.enumFrom_cons, List.filterMap_cons]
    by_cases hv : v = 0
    · simp [hv, ih]
    · simp [hv, ih]

theorem emitLinks_ok {npredictions : Nat} {flows : List (List ℚ)}
    (h : ∀ row ∈ flows, row.length = npredictions) (nconcepts i : Nat) :
    emitLinks nconcepts npredictions i flows =
      Except.ok (rowMajorLinks nconcepts i flows) := by
  induction flows generalizing i with
  | nil => rfl
  | cons row rest ih =>
    have hrow : row.length = npredictions := h row (List.mem_cons_self _ _)
    simp only [emitLinks, rowMajorLinks]
    rw [if_neg (by simp [hrow]), ih (fun r hr => h r (List.mem_cons_of_mem _ hr))]
    rfl

theorem emitLinks_err {npredictions : Nat} {flows : List (List ℚ)} {row : List ℚ}
    (hmem : row ∈ flows) (hbad : row.length ≠ npredictions) (nconcepts i : Nat) :
    emitLinks nconcepts npredictions i flows =
      Except.error "each flow row must match number of predictions" := by
  induction flows generalizing i with
  | nil => cases hmem
  | cons r rest ih =>
    simp only [emitLinks]
    by_cases hr : r.length ≠ npredictions
    · rw [if_pos hr]
    · rw [if_neg hr]
      rcases List.mem_cons.mp hmem with heq | hmem'
      · subst heq
        exact absurd hbad hr
      · rw [ih hmem']
        rfl

theorem rowMajorLinks_length (nconcepts i : Nat) (flows : List (List ℚ)) :
    (rowMajorLinks nconcepts i flows).length = nonzeroCount flows := by
  induction flows generalizing i with
  | nil => rfl
  | cons row rest ih =>
    simp only [rowMajorLinks, List.length_append, emitRow_length, nonzeroCount,
      List.map_cons, List.sum_cons]
    rw [show (rowMajorLinks nconcepts (i + 1) rest).length = nonzeroCount rest
      from ih (i + 1)]
    rfl

theorem rowMajorLinks_mem {nconcepts npredictions i : Nat}
    {flows : List (List ℚ)} {l : Link}
    (hrows : ∀ row ∈ flows, row.length = npredictions)
    (h : l ∈ rowMajorLinks nconcepts i flows) :
    i ≤ l.src ∧ l.src < i + flows.length ∧
      nconcepts ≤ l.tgt ∧ l.tgt < nconcepts + npredictions ∧ l.val ≠ 0 := by
  induction flows generalizing i with
  | nil => cases h
  | cons row rest ih =>
    simp only [rowMajorLinks] at h
    rcases List.mem_append.mp h with hrow | hrest
    · obtain ⟨h1, h2, h3, h4⟩ := emitRow_mem hrow
      have hlen : row.length = npredictions := hrows row (List.mem_cons_self _ _)
      refine ⟨by omega, ?_, by omega, by omega, h4⟩
      simp only [List.length_cons]
      omega
    · obtain ⟨h1, h2, h3, h4, h5⟩ :=
        ih (fun r hr => hrows r (List.mem_cons_of_mem _ hr)) hrest
      refine ⟨by omega, ?_, h3, h4, h5⟩
      simp only [List.length_cons]
      omega

theorem rowMajorLinks_mem_intro {flows : List (List ℚ)} (nconcepts i : Nat)
    {r c : Nat} (hr : r < flows.length)
    (hc : c < (flows.getD r []).length)
    (hv : (flows.getD r []).getD c 0 ≠ 0) :
    (⟨i + r, nconcepts + c, (flows.getD r []).getD c 0⟩ : Link) ∈
      rowMajorLinks nconcepts i flows := by
  induction flows generalizing i r with
  | nil => cases hr
  | cons row rest ih =>
    simp only [rowMajorLinks]
    cases r with
    | zero =>
      simp only [List.getD_cons_zero] at hc hv ⊢
      apply List.mem_append_left
      have := emitRow_mem_intro i nconcepts 0 hc hv
      simpa using this
    | succ r' =>
      simp only [List.getD_cons_succ] at hc hv ⊢
      simp only [List.length_cons] at hr
      apply List.mem_append_right
      have hrec := ih (i + 1) (by omega) hc hv
      have hidx : i + 1 + r' = i + (r' + 1) := by omega
      rw [hidx] at hrec
      exact hrec

theorem rowMajorLinks_eq_enumFrom (nconcepts i : Nat) (flows : List (List ℚ)) :
    rowMajorLinks nconcepts i flows =
      ((flows.enumFrom i).map (fun ir =>
        ir.2.enum.filterMap (fun jv =>
          if jv.2 = 0 then none else some ⟨ir.1, nconcepts + jv.1, jv.2⟩))).flatten := by
  induction flows generalizing i with
  | nil => rfl
  | cons row rest ih =>
    simp only [rowMajorLinks, List.enumFrom_cons, List.map_cons, List.flatten_cons, ih]
    rw [emitRow_eq_enumFrom, List.enum_eq_enumFrom]

theorem rowMajorSpec_eq (nconcepts : Nat) (flows : List (List ℚ)) :
    rowMajorSpec nconcepts flows = rowMajorLinks nconcepts 0 flows := by
  rw [rowMajorSpec, rowMajorLinks_eq_enumFrom, List.enum_eq_enumFrom]

theorem getD_range_map {α : Type} (f : Nat → α) (n i : Nat) (d : α) (h : i < n) :
    (((List.range n).map f).getD i d) = f i := by
  rw [List.getD_eq_getElem?_getD, List.getElem?_map, List.getElem?_range h]
  rfl

theorem getD_map_of_lt {α β : Type} (f : α → β) (l : List α) (i : Nat) (d : β)
    (h : i < l.length) :
    (l.map f).getD i d = f (l.get ⟨i, h⟩) := by
  rw [List.getD_eq_getElem?_getD, List.getElem?_map, List.getElem?_eq_getElem h]
  rfl

theorem sankey_ok (templateColorway : Option (List String))
    (concepts predictions : List String) (flows : List (List ℚ))
    (concept_colors : Option (List String)) (prediction_color : String)
    (h1 : flows.length = concepts.length)
    (h2 : ∀ row ∈ flows, row.length = predictions.length) :
    concept_prediction_sankey templateColorway concepts predictions flows
        concept_colors prediction_color =
      Except.ok (okDescriptor templateColorway concepts predictions flows
        concept_colors prediction_color) := by
  unfold concept_prediction_sankey okDescriptor
  rw [if_neg (by simp [h1]), emitLinks_ok h2]
  rfl

theorem sankey_rowcount_err (templateColorway : Option (List String))
    (concepts predictions : List String) (flows : List (List ℚ))
    (concept_colors : Option (List String)) (prediction_color : String)
    (h : flows.length ≠ concepts.length) :
    concept_prediction_sankey templateColorway concepts predictions flows
        concept_colors prediction_color =
      Except.error "flows rows must match number of concepts" := by
  unfold concept_prediction_sankey
  rw [if_pos h]

theorem sankey_rowlen_err (templateColorway : Option (List String))
    (concepts predictions : List String) (flows : List (List ℚ))
    (concept_colors : Option (List String)) (prediction_color : String)
    {row : List ℚ} (h1 : flows.length = concepts.length)
    (hmem : row ∈ flows) (hbad : row.length ≠ predictions.length) :
    concept_prediction_sankey templateColorway concepts predictions flows
        concept_colors prediction_color =
      Except.error "each flow row must match number of predictions" := by
  unfold concept_prediction_sankey
  rw [if_neg (by simp [h1]), emitLinks_err hmem hbad]
  rfl

theorem sankey_ok_inv {templateColorway : Option (List String)}
    {concepts predictions : List String} {flows : List (List ℚ)}
    {concept_colors : Option (List String)} {prediction_color : String}
    {d : SankeyDescriptor}
    (h : concept_prediction_sankey templateColorway concepts predictions flows
        concept_colors prediction_color = Except.ok d) :
    flows.length = concepts.length ∧
      (∀ row ∈ flows, row.length = predictions.length) ∧
      d = okDescriptor templateColorway concepts predictions flows
        concept_colors prediction_color := by
  by_cases h1 : flows.length = concepts.length
  · by_cases h2 : ∀ row ∈ flows, row.length = predictions.length
    · refine ⟨h1, h2, ?_⟩
      rw [sankey_ok _ _ _ _ _ _ h1 h2] at h
      exact (Except.ok.inj h).symm
    · push_neg at h2
      obtain ⟨row, hmem, hbad⟩ := h2
      rw [sankey_rowlen_err _ _ _ _ _ _ h1 hmem hbad] at h
      exact Except.noConfusion h
  · rw [sankey_rowcount_err _ _ _ _ _ _ h1] at h
    exact Except.noConfusion h

/-- C1: for every concepts list, predictions list and flow matrix whose row
count equals the concepts count and whose every row has length equal to the
predictions count, `concept_prediction_sankey` succeeds and the common length
of its `source`/`target`/`value` arrays equals the number of non-zero cells of
the matrix; in particular every zero-valued cell produces no link. -/
theorem links_count_eq_nonzero_cells (tw : Option (List String))
    (concepts predictions : List String) (flows : List (List ℚ))
    (cc : Option (List String)) (pc : String)
    (h1 : flows.length = concepts.length)
    (h2 : ∀ row ∈ flows, row.length = predictions.length) :
    ∃ d, concept_prediction_sankey tw concepts predictions flows cc pc =
        Except.ok d ∧
      d.source.length = nonzeroCount flows ∧
      d.target.length = nonzeroCount flows ∧
      d.value.length = nonzeroCount flows := by
  refine ⟨_, sankey_ok tw concepts predictions flows cc pc h1 h2, ?_, ?_, ?_⟩ <;>
    simp [okDescriptor, rowMajorLinks_length]

/-- Witness for C1: a 2×1 matrix with one non-zero cell yields arrays of
length `nonzeroCount [[1], [0]] = 1`. -/
theorem links_count_eq_nonzero_cells_witness :
    ∃ d, concept_prediction_sankey none ["A", "B"] ["X"] [[1], [0]] none "c" =
        Except.ok d ∧
      d.source.length = nonzeroCount [[1], [0]] ∧
      d.target.length = nonzeroCount [[1], [0]] ∧
      d.value.length = nonzeroCount [[1], [0]] :=
  links_count_eq_nonzero_cells none ["A", "B"] ["X"] [[1], [0]] none "c"
    (by decide) (by decide)

/-- C2: for every valid (successful) invocation, every emitted link has its
source index strictly below the concepts count and its target index between
the concepts count (inclusive) and the total node count (exclusive). -/
theorem links_bipartite (tw : Option (List String))
    (concepts predictions : List String) (flows : List (List ℚ))
    (cc : Option (List String)) (pc : String) (d : SankeyDescriptor)
    (h : concept_prediction_sankey tw concepts predictions flows cc pc =
      Except.ok d) :
    (∀ s ∈ d.source, s < concepts.length) ∧
      (∀ t ∈ d.target,
        concepts.length ≤ t ∧ t < concepts.length + predictions.length) := by
  obtain ⟨h1, h2, rfl⟩ := sankey_ok_inv h
  constructor
  · intro s hs
    simp only [okDescriptor, List.mem_map] at hs
    obtain ⟨l, hl, rfl⟩ := hs
    obtain ⟨-, hsrc, -, -, -⟩ := rowMajorLinks_mem h2 hl
    omega
  · intro t ht
    simp only [okDescriptor, List.mem_map] at ht
    obtain ⟨l, hl, rfl⟩ := ht
    obtain ⟨-, -, h3, h4, -⟩ := rowMajorLinks_mem h2 hl
    exact ⟨h3, h4⟩

/-- Witness for C2 at a concrete 1×1 input. -/
theorem links_bipartite_witness :
    ∃ d, concept_prediction_sankey none ["A"] ["X"] [[5]] none "c" =
        Except.ok d ∧
      ((∀ s ∈ d.source, s < 1) ∧ (∀ t ∈ d.target, 1 ≤ t ∧ t < 2)) :=
  ⟨_, rfl, links_bipartite none ["A"] ["X"] [[5]] none "c" _ rfl⟩

/-- C3: whenever the matrix row count differs from the concepts count, or some
row's length differs from the predictions count, `concept_prediction_sankey`
raises a shape-mismatch `ValueError` and returns no descriptor. -/
theorem shape_mismatch_errors (tw : Option (List String))
    (concepts predictions : List String) (flows : List (List ℚ))
    (cc : Option (List String)) (pc : String)
    (h : flows.length ≠ concepts.length ∨
      ∃ row ∈ flows, row.length ≠ predictions.length) :
    (∃ e, concept_prediction_sankey tw concepts predictions flows cc pc =
        Except.error e) ∧
      ∀ d, concept_prediction_sankey tw concepts predictions flows cc pc ≠
        Except.ok d := by
  have herr : ∃ e,
      concept_prediction_sankey tw concepts predictions flows cc pc =
        Except.error e := by
    rcases h with hrc | ⟨row, hmem, hbad⟩
    · exact ⟨_, sankey_rowcount_err tw concepts predictions flows cc pc hrc⟩
    · by_cases h1 : flows.length = concepts.length
      · exact ⟨_, sankey_rowlen_err tw concepts predictions flows cc pc h1 hmem hbad⟩
      · exact ⟨_, sankey_rowcount_err tw concepts predictions flows cc pc h1⟩
  obtain ⟨e, he⟩ := herr
  refine ⟨⟨e, he⟩, fun d hd => ?_⟩
  rw [he] at hd
  exact Except.noConfusion hd

/-- Witness for C3: a matrix with 3 rows against 2 source labels errors. -/
theorem shape_mismatch_errors_witness :
    (∃ e, concept_prediction_sankey none ["A", "B"] ["X"] [[1], [1], [1]]
        none "c" = Except.error e) ∧
      ∀ d, concept_prediction_sankey none ["A", "B"] ["X"] [[1], [1], [1]]
        none "c" ≠ Except.ok d :=
  shape_mismatch_errors none ["A", "B"] ["X"] [[1], [1], [1]] none "c"
    (Or.inl (by decide))

/-- C4: for concepts `["A","B"]`, predictions `["X","Y"]` and matrix
`[[1,0],[0,2]]`, exactly two links are emitted: 0→2 with value 1 and 1→3 with
value 2, and the two zero cells contribute none. -/
theorem concrete_two_by_two_example :
    ∃ d, concept_prediction_sankey none ["A", "B"] ["X", "Y"]
        [[1, 0], [0, 2]] none "#111827" = Except.ok d ∧
      d.source = [0, 1] ∧ d.target = [2, 3] ∧ d.value = [1, 2] :=
  ⟨_, rfl, rfl, rfl, rfl⟩

/-- C5: each source-category node `i` is colored `palette[i % len(palette)]`,
each target-category node gets the fixed `prediction_color`, and each link is
colored like its source node. -/
theorem color_assignment (tw : Option (List String))
    (concepts predictions : List String) (flows : List (List ℚ))
    (cc : Option (List String)) (pc : String) (d : SankeyDescriptor)
    (h : concept_prediction_sankey tw concepts predictions flows cc pc =
      Except.ok d) :
    (∀ i, i < concepts.length →
      d.nodeColors.getD i "" =
        (resolvedPalette tw cc).getD (i % (resolvedPalette tw cc).length) "") ∧
    (∀ k, concepts.length ≤ k → k < concepts.length + predictions.length →
      d.nodeColors.getD k "" = pc) ∧
    (∀ k, k < d.source.length →
      d.linkColors.getD k "" = d.nodeColors.getD (d.source.getD k 0) "") := by
  obtain ⟨h1, h2, rfl⟩ := sankey_ok_inv h
  have hccl : ((List.range concepts.length).map
      (fun i => (resolvedPalette tw cc).getD
        (i % (resolvedPalette tw cc).length) "")).length = concepts.length := by
    simp
  refine ⟨?_, ?_, ?_⟩
  · intro i hi
    simp only [okDescriptor]
    rw [List.getD_append _ _ _ i (by rw [hccl]; exact hi)]
    exact getD_range_map _ _ _ _ hi
  · intro k hk1 hk2
    simp only [okDescriptor]
    rw [List.getD_append_right _ _ _ k (by rw [hccl]; exact hk1), hccl,
      List.getD_eq_getElem?_getD, List.getElem?_replicate, if_pos (by omega)]
    rfl
  · intro k hk
    simp only [okDescriptor] at hk ⊢
    rw [List.length_map] at hk
    rw [getD_map_of_lt _ _ _ _ hk, getD_map_of_lt _ _ _ _ hk]
    have hlmem : (rowMajorLinks concepts.length 0 flows).get ⟨k, hk⟩ ∈
        rowMajorLinks concepts.length 0 flows := List.get_mem _ _ _
    obtain ⟨-, hslt, -, -, -⟩ := rowMajorLinks_mem h2 hlmem
    rw [List.getD_append _ _ _ _ (by rw [hccl]; omega)]

/-- Witness for C5: a 2-color palette over 5 source categories alternates
colors, the single target node gets the fixed prediction color, and links
inherit their source node color. -/
theorem color_assignment_witness :
    ∃ d, concept_prediction_sankey none ["c0", "c1", "c2", "c3", "c4"] ["p"]
        [[1], [1], [1], [1], [1]] (some ["red", "blue"]) "#111827" =
        Except.ok d ∧
      ((∀ i, i < 5 →
          d.nodeColors.getD i "" = ["red", "blue"].getD (i % 2) "") ∧
        (∀ k, 5 ≤ k → k < 6 → d.nodeColors.getD k "" = "#111827") ∧
        (∀ k, k < d.source.length →
          d.linkColors.getD k "" = d.nodeColors.getD (d.source.getD k 0) "")) :=
  ⟨_, rfl, color_assignment none ["c0", "c1", "c2", "c3", "c4"] ["p"]
    [[1], [1], [1], [1], [1]] (some ["red", "blue"]) "#111827" _ rfl⟩

/-- C6: the emitted `(source, target, value)` triples are exactly the
row-major enumeration of the matrix: one link per non-zero cell `(i, j)`,
with source `i`, target `concepts count + j` and the cell's magnitude. -/
theorem links_row_major (tw : Option (List String))
    (concepts predictions : List String) (flows : List (List ℚ))
    (cc : Option (List String)) (pc : String) (d : SankeyDescriptor)
    (h : concept_prediction_sankey tw concepts predictions flows cc pc =
      Except.ok d) :
    d.source.zip (d.target.zip d.value) =
      (rowMajorSpec concepts.length flows).map
        (fun l => (l.src, l.tgt, l.val)) := by
  obtain ⟨h1, h2, rfl⟩ := sankey_ok_inv h
  simp only [okDescriptor, rowMajorSpec_eq]
  rw [List.zip_map', List.zip_map']

/-- Witness for C6 at a concrete 2×2 input with off-diagonal flows. -/
theorem links_row_major_witness :
    ∃ d, concept_prediction_sankey none ["A", "B"] ["X", "Y"]
        [[0, 3], [4, 0]] none "c" = Except.ok d ∧
      d.source.zip (d.target.zip d.value) =
        (rowMajorSpec 2 [[0, 3], [4, 0]]).map
          (fun l => (l.src, l.tgt, l.val)) :=
  ⟨_, rfl, links_row_major none ["A", "B"] ["X", "Y"] [[0, 3], [4, 0]]
    none "c" _ rfl⟩

/-- C7: the builder is deterministic: two invocations on identical inputs
(under the same ambient template colorway) return identical descriptors; the
embedding is a pure function, so there are no side effects. -/
theorem deterministic (tw : Option (List String))
    (concepts₁ concepts₂ predictions₁ predictions₂ : List String)
    (flows₁ flows₂ : List (List ℚ)) (cc₁ cc₂ : Option (List String))
    (pc₁ pc₂ : String) (hc : concepts₁ = concepts₂)
    (hp : predictions₁ = predictions₂) (hf : flows₁ = flows₂)
    (hcc : cc₁ = cc₂) (hpc : pc₁ = pc₂) :
    concept_prediction_sankey tw concepts₁ predictions₁ flows₁ cc₁ pc₁ =
      concept_prediction_sankey tw concepts₂ predictions₂ flows₂ cc₂ pc₂ := by
  rw [hc, hp, hf, hcc, hpc]

/-- Witness for C7 at a concrete input. -/
theorem deterministic_witness :
    ["A"] = ["A"] ∧
      concept_prediction_sankey none ["A"] ["X"] [[1]] none "c" =
        concept_prediction_sankey none ["A"] ["X"] [[1]] none "c" :=
  ⟨rfl, deterministic none ["A"] ["A"] ["X"] ["X"] [[1]] [[1]] none none
    "c" "c" rfl rfl rfl rfl rfl⟩

/-- C8: whenever `concept_colors` is `None` with an absent or empty template
colorway, or is an empty sequence, the palette falls back to the fixed
five-color default; the resolved palette is never empty, so the modular index
`i % len(palette)` always has a positive modulus and stays in bounds. -/
theorem palette_never_empty (tw : Option (List String))
    (cc : Option (List String)) :
    (((cc = none ∧ tw.getD [] = []) ∨ cc = some []) →
        resolvedPalette tw cc = defaultConceptColors) ∧
      resolvedPalette tw cc ≠ [] ∧
      ∀ i : Nat,
        i % (resolvedPalette tw cc).length < (resolvedPalette tw cc).length := by
  have hne : resolvedPalette tw cc ≠ [] := by
    rcases cc with _ | c
    · rcases tw with _ | t
      · decide
      · cases t with
        | nil => simp [resolvedPalette, defaultConceptColors]
        | cons a as => simp [resolvedPalette]
    · cases c with
      | nil => simp [resolvedPalette, defaultConceptColors]
      | cons a as => simp [resolvedPalette]
  have hdef : ((cc = none ∧ tw.getD [] = []) ∨ cc = some []) →
      resolvedPalette tw cc = defaultConceptColors := by
    rintro (⟨rfl, htw⟩ | rfl)
    · simp [resolvedPalette, htw]
    · simp [resolvedPalette]
  exact ⟨hdef, hne, fun i => Nat.mod_lt i (List.length_pos.mpr hne)⟩

/-- C9: the builder errors exactly on shape mismatch (row count differing from
the concepts count, or some row's length differing from the predictions
count); magnitudes themselves are not validated, so a negative non-zero cell
is emitted as a link carrying that negative value with no error raised. -/
theorem error_iff_shape_mismatch (tw : Option (List String))
    (concepts predictions : List String) (flows : List (List ℚ))
    (cc : Option (List String)) (pc : String) :
    ((∃ e, concept_prediction_sankey tw concepts predictions flows cc pc =
        Except.error e) ↔
      (flows.length ≠ concepts.length ∨
        ∃ row ∈ flows, row.length ≠ predictions.length)) ∧
    (∀ d, concept_prediction_sankey tw concepts predictions flows cc pc =
        Except.ok d →
      ∀ r c, r < flows.length → c < (flows.getD r []).length →
        (flows.getD r []).getD c 0 < 0 →
        (flows.getD r []).getD c 0 ∈ d.value) := by
  constructor
  · constructor
    · rintro ⟨e, he⟩
      by_contra hcon
      push_neg at hcon
      obtain ⟨hrc, hrl⟩ := hcon
      rw [sankey_ok tw concepts predictions flows cc pc hrc hrl] at he
      exact Except.noConfusion he
    · intro h
      rcases h with hrc | ⟨row, hmem, hbad⟩
      · exact ⟨_, sankey_rowcount_err tw concepts predictions flows cc pc hrc⟩
      · by_cases h1 : flows.length = concepts.length
        · exact ⟨_,
            sankey_rowlen_err tw concepts predictions flows cc pc h1 hmem hbad⟩
        · exact ⟨_, sankey_rowcount_err tw concepts predictions flows cc pc h1⟩
  · intro d hd r c hr hc hneg
    obtain ⟨h1, h2, rfl⟩ := sankey_ok_inv hd
    simp only [okDescriptor]
    have hv : (flows.getD r []).getD c 0 ≠ 0 := ne_of_lt hneg
    have hmem := rowMajorLinks_mem_intro concepts.length 0 hr hc hv
    exact List.mem_map_of_mem Link.val hmem

/-- C10: all parallel arrays of the descriptor stay aligned: `target`,
`value` and the link colors have the same length as `source`, and the label
and node-color lists both have length concepts count + predictions count. -/
theorem parallel_arrays_aligned (tw : Option (List String))
    (concepts predictions : List String) (flows : List (List ℚ))
    (cc : Option (List String)) (pc : String) (d : SankeyDescriptor)
    (h : concept_prediction_sankey tw concepts predictions flows cc pc =
      Except.ok d) :
    d.target.length = d.source.length ∧
      d.value.length = d.source.length ∧
      d.linkColors.length = d.source.length ∧
      d.labels.length = concepts.length + predictions.length ∧
      d.nodeColors.length = concepts.length + predictions.length := by
  obtain ⟨h1, h2, rfl⟩ := sankey_ok_inv h
  simp [okDescriptor]

/-- Witness for C10 at a concrete 2×1 input. -/
theorem parallel_arrays_aligned_witness :
    ∃ d, concept_prediction_sankey none ["A", "B"] ["X"] [[1], [2]] none "c" =
        Except.ok d ∧
      (d.target.length = d.source.length ∧
        d.value.length = d.source.length ∧
        d.linkColors.length = d.source.length ∧
        d.labels.length = 3 ∧ d.nodeColors.length = 3) :=
  ⟨_, rfl, parallel_arrays_aligned none ["A", "B"] ["X"] [[1], [2]] none "c"
    _ rfl⟩

end Sankey
